import Mathlib

/-!
# Verification of the filename tokenizer in `media/categorise.py`

Shallow embedding of the classifier over `List Char` (Python `str` values are
modelled as lists of characters; ASCII inputs behave identically).  Numeric
character tests (`str.isnumeric` on digits) are modelled with `Char.isDigit`
and case folding (`str.lower`) with `Char.toLower`, which agree with Python on
ASCII.  Python exceptions are modelled with `Option`: a function that can raise
returns `none` on the raising paths.
-/

namespace Categorise

/-- The `Token` class hierarchy of `categorise.py`: one variant per subclass,
each carrying the `value` payload (`EpisodeNumber` carries an integer). -/
inductive Token where
  | extension (v : List Char)
  | audioQuality (v : List Char)
  | videoQuality (v : List Char)
  | source (v : List Char)
  | subGroup (v : List Char)
  | randomTag (v : List Char)
  | audioLanguage (v : List Char)
  | subtitlesLanguage (v : List Char)
  | hash (v : List Char)
  | title (v : List Char)
  | episodeNumber (v : Nat)
  deriving DecidableEq, Repr

/-- The `KNOWN_GROUPS` set (membership test only, never mutated). -/
def KNOWN_GROUPS : List (List Char) :=
  ["Erai-raws", "HorribleSubs", "FFF", "Commie",
   "SallySubs", "CBM", "Fate-Akuma", "niizk", "OZC",
   "kuchikirukia", "Evil_Genuis", "illya_", "Beatrice-Raws",
   "Zurako", "NoobSubs", "OTR", "Orphan-fussoir", "lleur",
   "REVO", "deanzel", "RH", "FMA1394", "R2JxR1", "Elysium",
   "Afro", "Kametsu", "bxyh", "BSS", "NOP", "Team Nanban",
   "35mm"].map String.toList

/-- `string.lower()` on a word (ASCII case folding). -/
def toLowerStr (l : List Char) : List Char := l.map Char.toLower

/-- Python `s != [] and s.isnumeric()`-style digit-string test
(`str.isnumeric` is true iff the string is nonempty and all characters are
numeric; modelled with ASCII digits). -/
def isNumericStr (l : List Char) : Bool := !l.isEmpty && l.all Char.isDigit

/-- `string.split(sep)` for a single-character separator: splits at every
occurrence, keeping empty pieces (Python semantics). -/
def pySplit (sep : Char) : List Char → List (List Char)
  | [] => [[]]
  | c :: rest =>
    if c = sep then [] :: pySplit sep rest
    else
      match pySplit sep rest with
      | w :: ws => (c :: w) :: ws
      | [] => [[c]]

/-- `_is_source_tag`: case-insensitive membership in the fixed source set. -/
def is_source_tag (w : List Char) : Bool :=
  (["bluray", "blu-ray", "bd", "bdrip", "dvd",
    "dvdrip", "web", "webrip", "hdtv", "hardsub",
    "vrv"].map String.toList).contains (toLowerStr w)

/-- `_is_audio_tag`: the fixed audio set, or the 3-character
`<digit>.<digit>` channel pattern. -/
def is_audio_tag (w : List Char) : Bool :=
  (["aac", "ac3", "flac", "vorbis", "dts",
    "aac_5.1", "dts-es", "2ch"].map String.toList).contains (toLowerStr w)
  || (match w with
      | [a, b, c] => a.isDigit && b = '.' && c.isDigit
      | _ => false)

/-- `_is_language_tag`: case-insensitive membership in `{jp, en, dual}`. -/
def is_language_tag (w : List Char) : Bool :=
  (["jp", "en", "dual"].map String.toList).contains (toLowerStr w)

/-- `_is_video_tag`: fixed set, or all-digits followed by a trailing `p`,
or a `WIDTHxHEIGHT` shape (exactly one `x`, both sides all-digit). -/
def is_video_tag (w : List Char) : Bool :=
  (["hevc", "hi10p", "x264", "x265", "h264",
    "10bit"].map String.toList).contains (toLowerStr w)
  || (isNumericStr w.dropLast && w.getLast? == some 'p')
  || (w.count 'x' == 1 &&
      match pySplit 'x' w with
      | [width, height] => isNumericStr width && isNumericStr height
      | _ => false)

/-- The per-word branch of `_tokenise_tag`: the four classifiers tried in
source order (audio, video, source, language); `none` means the word joins
the `unclassified` list. -/
def classifyWord (w : List Char) : Option Token :=
  if is_audio_tag w then some (.audioQuality w)
  else if is_video_tag w then some (.videoQuality w)
  else if is_source_tag w then some (.source w)
  else if is_language_tag w then some (.audioLanguage w)
  else none

/-- The loop of `_tokenise_tag`: builds the `tokens` and `unclassified`
lists in word order. -/
def tokeniseTagAux : List (List Char) → List Token × List (List Char)
  | [] => ([], [])
  | w :: ws =>
    let rest := tokeniseTagAux ws
    match classifyWord w with
    | some t => (t :: rest.1, rest.2)
    | none => (rest.1, w :: rest.2)

/-- `_tokenise_tag(words)`: returns the tokens, or `none` for the
`raise RuntimeError` path taken when any word is unclassified. -/
def tokeniseTag (words : List (List Char)) : Option (List Token) :=
  let r := tokeniseTagAux words
  if r.2.isEmpty then some r.1 else none

/-- The `for char in (' ', ',', '-', '.', '_')` retry loop of `_tokenise`:
first delimiter whose split fully classifies wins; `none` when all fail. -/
def trySplitChars : List Char → List Char → Option (List Token)
  | [], _ => none
  | c :: cs, value =>
    match tokeniseTag (pySplit c value) with
    | some ts => some ts
    | none => trySplitChars cs value

/-- `re.match(r'Disc \d', value)`: prefix `Disc ` followed by a digit. -/
def noiseDisc : List Char → Bool
  | c0 :: c1 :: c2 :: c3 :: c4 :: d :: _ =>
    c0 == 'D' && c1 == 'i' && c2 == 's' && c3 == 'c' && c4 == ' ' && d.isDigit
  | _ => false

/-- `re.match(r'v\d', value)`: prefix `v` followed by a digit. -/
def noiseV : List Char → Bool
  | c0 :: d :: _ => c0 == 'v' && d.isDigit
  | _ => false

/-- The discard branch of `_tokenise`: disc/version/edition noise. -/
def isNoise (v : List Char) : Bool :=
  noiseDisc v || noiseV v
  || v == String.toList "Directors Cut" || v == String.toList "Clean Screen"

/-- Characters of Python `string.hexdigits`. -/
def isHexDigit (c : Char) : Bool :=
  c.isDigit || ('a' ≤ c && c ≤ 'f') || ('A' ≤ c && c ≤ 'F')

/-- The per-tag classification cascade of `_tokenise` (the `if/elif` chain on
one bracket-tag content): known group, 8-hex hash, the two fixed literals,
noise, then the delimiter-retry path (which contributes nothing on failure,
matching the caught `RuntimeError`s). -/
def tagTokens (value : List Char) : List Token :=
  if KNOWN_GROUPS.contains value then [.subGroup value]
  else if value.length == 8 && value.all isHexDigit then [.hash value]
  else if value = String.toList "Multiple Subtitle" then
    [.subtitlesLanguage (String.toList "Multiple"),
     .subtitlesLanguage (String.toList "EN")]
  else if value = String.toList "Dual Audio" then
    [.audioLanguage (String.toList "EN"), .audioLanguage (String.toList "JP")]
  else if isNoise value then []
  else
    match trySplitChars [' ', ',', '-', '.', '_'] value with
    | some ts => ts
    | none => []

/-- `re.findall(r'\[[^]]+]', string)`, as a left-to-right scan.  The state is
`none` outside a candidate tag and `some acc` after an unclosed `[`, with
`acc` the reversed content read so far; a `]` closes the tag when the content
is nonempty, otherwise the scan resumes after the failed position. -/
def findTagsAux : Option (List Char) → List Char → List (List Char)
  | none, [] => []
  | none, c :: rest =>
    if c = '[' then findTagsAux (some []) rest else findTagsAux none rest
  | some _, [] => []
  | some acc, c :: rest =>
    if c = ']' then
      if acc.isEmpty then findTagsAux none rest
      else ('[' :: acc.reverse ++ [']']) :: findTagsAux none rest
    else findTagsAux (some (c :: acc)) rest

def findTags (l : List Char) : List (List Char) := findTagsAux none l

/-- `string.split(tag, maxsplit=1)`: split at the first occurrence of `tag`;
`none` models the `ValueError` of unpacking a failed split. -/
def splitFirst (sep : List Char) : List Char → Option (List Char × List Char)
  | [] => if sep.isPrefixOf [] then some ([], []) else none
  | c :: rest =>
    if sep.isPrefixOf (c :: rest) then some ([], (c :: rest).drop sep.length)
    else (splitFirst sep rest).map (fun p => (c :: p.1, p.2))

/-- `string.lstrip()` (whitespace only). -/
def lstrip (l : List Char) : List Char := l.dropWhile Char.isWhitespace

/-- `string.rstrip()` (whitespace only). -/
def rstrip (l : List Char) : List Char :=
  (l.reverse.dropWhile Char.isWhitespace).reverse

/-- The main `for tag in re.findall(...)` loop of `_tokenise`: classifies each
tag, splits the working string at the tag, and collects non-empty stripped
remainders in order.  Returns the tokens, the residual segments, and the
final leftover string; `none` propagates a split failure. -/
def tokeniseLoop :
    List (List Char) → List Char → Option (List Token × List (List Char) × List Char)
  | [], s => some ([], [], s)
  | tag :: rest, s =>
    let value := (tag.drop 1).dropLast
    match splitFirst tag s with
    | none => none
    | some (remainder, s1) =>
      let remainder := rstrip remainder
      let s2 := lstrip s1
      match tokeniseLoop rest s2 with
      | none => none
      | some (ts, segs, sfinal) =>
        some (tagTokens value ++ ts,
              (if remainder.isEmpty then segs else remainder :: segs), sfinal)

/-- Digit string to integer (`int` on a `\d+` capture). -/
def digitsToNat (l : List Char) : Nat :=
  l.foldl (fun n c => 10 * n + (c.toNat - '0'.toNat)) 0

/-- `( END)?$` of the title pattern: the literal ` END` is optional and `$`
matches at the end of the string or just before a final newline. -/
def tailEnd2 (l : List Char) : Bool :=
  l == [] || l == ['\n'] || l == [' ', 'E', 'N', 'D'] ||
  l == [' ', 'E', 'N', 'D', '\n']

/-- `(v\d+)?( END)?$` of the title pattern: the greedy `v`+digits group is
tried first, else skipped. -/
def tailEnd (l : List Char) : Bool :=
  (match l with
   | 'v' :: rest =>
     !(rest.takeWhile Char.isDigit).isEmpty
       && tailEnd2 (rest.dropWhile Char.isDigit)
   | _ => false)
  || tailEnd2 l

/-- `(\d+)` of the second-episode group, followed by the pattern tail. -/
def secDigits (ep : Nat) (l : List Char) : Option (Nat × Option Nat) :=
  let ds := l.takeWhile Char.isDigit
  if ds.isEmpty then none
  else if tailEnd (l.dropWhile Char.isDigit) then
    some (ep, some (digitsToNat ds))
  else none

/-- `(\+E?(\d+))?` after the first episode number: the greedy optional group
is tried first (`E?` preferring to consume an `E`), else skipped. -/
def afterEp (ep : Nat) (l : List Char) : Option (Nat × Option Nat) :=
  (match l with
   | '+' :: rest =>
     (match rest with
      | 'E' :: r2 => secDigits ep r2 <|> secDigits ep rest
      | _ => secDigits ep rest)
   | _ => none)
  <|> (if tailEnd l then some (ep, none) else none)

/-- `(\d+)` of the first episode number (greedy), then the rest of the
pattern. -/
def epDigits (l : List Char) : Option (Nat × Option Nat) :=
  let ds := l.takeWhile Char.isDigit
  if ds.isEmpty then none
  else afterEp (digitsToNat ds) (l.dropWhile Char.isDigit)

/-- `E?(\d+)...` after the literal ` - `: greedy `E?` first consumes an `E`
when present, falling back to no `E`. -/
def afterDash (l : List Char) : Option (Nat × Option Nat) :=
  match l with
  | 'E' :: rest => epDigits rest <|> epDigits l
  | _ => epDigits l

/-- The literal ` - ` separating title from episode, then the episode part. -/
def titleRest (l : List Char) : Option (Nat × Option Nat) :=
  match l with
  | ' ' :: '-' :: ' ' :: rest => afterDash rest
  | _ => none

/-- `re.match(r'^(?P<name>.+?) - E?(?P<episode>\d+)(\+E?(?P<second_episode>\d+))?(?P<version>v\d+)?(?P<special_tag> END)?$', seg)`
with the captures `_tokenise` uses: the lazily matched name (shortest first,
`.` not matching newline), the episode number, and the optional second
episode.  The version and ` END` groups are recognised but not returned,
exactly as the code discards them. -/
def titleMatch : List Char → Option (List Char × Nat × Option Nat)
  | [] => none
  | c :: rest =>
    if c = '\n' then none
    else
      match titleRest rest with
      | some (ep, sec) => some ([c], ep, sec)
      | none =>
        match titleMatch rest with
        | some (nm, ep, sec) => some (c :: nm, ep, sec)
        | none => none

/-- The post-loop step of `_tokenise`: when exactly one residual segment
remains, try the title/episode pattern on it; on a match append
`Title`/`EpisodeNumber` tokens and clear the residuals, otherwise leave the
segment unchanged. -/
def finishTokenise (ts : List Token) (segs : List (List Char)) :
    List Token × List (List Char) :=
  match segs with
  | [seg] =>
    (match titleMatch seg with
     | some (nm, ep, sec) =>
       (ts ++ Token.title nm :: Token.episodeNumber ep ::
          (match sec with
           | some e2 => [Token.episodeNumber e2]
           | none => []), [])
     | none => (ts, [seg]))
  | _ => (ts, segs)

/-- `_tokenise(string)`: find all bracket tags, run the classification loop,
append the final leftover text as a residual segment, then the title/episode
step.  `none` models an uncaught exception. -/
def tokenise (s : List Char) : Option (List Token × List (List Char)) :=
  match tokeniseLoop (findTags s) s with
  | none => none
  | some (ts, segs, sfinal) =>
    some (finishTokenise ts (segs ++ (if sfinal.isEmpty then [] else [sfinal])))

/-!
## `ANIME_PATTERN` and `is_anime`

`ANIME_PATTERN = ^(?P<group>\[[^]]+])?(?P<name>.*?)(?P<tags>\[.+])+\.(?P<ext>[^.]+)$`
embedded as a backtracking matcher.  `.` matches any character except
newline; within the brackets of a tag it may match `[` and `]`.
-/

/-- `\.([^.]+)$`: a dot, then one or more non-dot characters, then the end
(`[^.]` includes the newline character, so the `$`-before-final-newline rule
adds no further matches). -/
def extEnd : List Char → Bool
  | '.' :: rest => !rest.isEmpty && rest.all (· ≠ '.')
  | _ => false

/-- `(\[.+])+\.([^.]+)$` as a scan.  State `none`: at the start of a tag,
expecting `[`.  State `some hc`: inside `\[.+`, where `hc` records whether at
least one content character has been consumed; a `]` may close the tag (when
`hc`) or be consumed as content, covering the backtracking of the greedy
`.+`. -/
def tagScan : Option Bool → List Char → Bool
  | none, '[' :: rest => tagScan (some false) rest
  | none, _ => false
  | some _, [] => false
  | some hc, c :: rest =>
    (c == ']' && hc && (tagScan none rest || extEnd rest))
    || (c != '\n' && tagScan (some true) rest)

/-- `(?P<name>.*?)(\[.+])+\.([^.]+)$`: the lazily matched `name` capture
(shortest prefix whose remainder matches the tags-and-extension part). -/
def nameCapture (l : List Char) : Option (List Char) :=
  if tagScan none l then some []
  else
    match l with
    | [] => none
    | c :: rest =>
      if c = '\n' then none else (nameCapture rest).map (c :: ·)

/-- `ANIME_PATTERN.match(string)` with the `group` (bracket content) and
`name` captures: the optional leading bracket group is preferred when its
branch lets the rest of the pattern match. -/
def animeCaptures (l : List Char) : Option (Option (List Char) × List Char) :=
  (match l with
   | '[' :: rest =>
     (let content := rest.takeWhile (fun c => c != ']')
      match rest.dropWhile (fun c => c != ']') with
      | ']' :: after =>
        if content.isEmpty then none
        else (nameCapture after).map (fun nm => (some content, nm))
      | _ => none)
   | _ => none)
  <|> (nameCapture l).map (fun nm => ((none : Option (List Char)), nm))

/-- `is_anime(string)`: the pattern matches and the string contains a space
character anywhere. -/
def is_anime (l : List Char) : Bool :=
  (animeCaptures l).isSome && l.contains ' '

end Categorise

namespace Categorise

/-! ## Delimiter-retry characterisation -/

theorem trySplitChars_eq_findSome (cs : List Char) (v : List Char) :
    trySplitChars cs v = cs.findSome? (fun c => tokeniseTag (pySplit c v)) := by
  induction cs with
  | nil => rfl
  | cons c cs ih =>
    simp only [trySplitChars, List.findSome?]
    cases h : tokeniseTag (pySplit c v) <;> simp [h, ih]

/-- Claim C2: `tokenize` on the extension-stripped
`[HorribleSubs] Show - 05 [720p]` returns exactly
`SubGroup("HorribleSubs"), VideoQuality("720p"), Title("Show"),
EpisodeNumber(5)` in that order, with no residual segment. -/
theorem claim_C2 :
    tokenise (String.toList "[HorribleSubs] Show - 05 [720p]") =
      some ([Token.subGroup (String.toList "HorribleSubs"),
             Token.videoQuality (String.toList "720p"),
             Token.title (String.toList "Show"),
             Token.episodeNumber 5], []) := by
  decide

/-- Claim C8: the bracket-tag content `Dual Audio` (not a known group and
not 8 characters, hence not a hash) classifies to exactly
`AudioLanguage("EN")` followed by `AudioLanguage("JP")`; the classification
is a function of the tag content alone. -/
theorem claim_C8 :
    KNOWN_GROUPS.contains (String.toList "Dual Audio") = false ∧
    (String.toList "Dual Audio").length ≠ 8 ∧
    tagTokens (String.toList "Dual Audio") =
      [Token.audioLanguage (String.toList "EN"),
       Token.audioLanguage (String.toList "JP")] := by
  decide

/-- Claim C3 (counterexample): `is_anime` accepts `[A B]C[D].e` although its
name portion (the capture between the leading bracket group and the trailing
tags) is `C`, which contains no space: the space check of `is_anime` looks at
the whole filename, and here the only space is inside the leading bracket
group. -/
theorem claim_C3_counterexample :
    is_anime (String.toList "[A B]C[D].e") = true ∧
    animeCaptures (String.toList "[A B]C[D].e") =
      some (some (String.toList "A B"), String.toList "C") ∧
    (String.toList "C").contains ' ' = false := by
  decide

/-- Claim C3 (amended): `is_anime` returns true iff the filename matches
`ANIME_PATTERN` (shape `[optional-bracket-group] <name> <bracket-tags> .
<extension>`, with no space requirement on the name portion) and the filename
contains at least one space character anywhere. -/
theorem claim_C3 (l : List Char) :
    is_anime l = true ↔
      ((animeCaptures l).isSome = true ∧ l.contains ' ' = true) := by
  simp [is_anime]

/-- Claim C7: the title/episode match runs only on an exactly-one-element
residual list; on a match it appends `Title(name)` and `EpisodeNumber`s
(second episode only when present) and clears the residuals, and on no match
the single segment is returned unchanged.  The version and ` END` markers are
recognised by the pattern but yield no token, as the two concrete
evaluations show. -/
theorem claim_C7 (ts : List Token) (segs : List (List Char))
    (seg nm : List Char) (ep : Nat) (sec : Option Nat) :
    (segs.length ≠ 1 → finishTokenise ts segs = (ts, segs)) ∧
    (titleMatch seg = some (nm, ep, sec) →
      finishTokenise ts [seg] =
        (ts ++ Token.title nm :: Token.episodeNumber ep ::
           (match sec with
            | some e2 => [Token.episodeNumber e2]
            | none => []), [])) ∧
    (titleMatch seg = none → finishTokenise ts [seg] = (ts, [seg])) ∧
    titleMatch (String.toList "Show - 05v2 END") =
      some (String.toList "Show", 5, none) ∧
    titleMatch (String.toList "Show - E05+E06v2 END") =
      some (String.toList "Show", 5, some 6) := by
  refine ⟨fun h => ?_, fun h => ?_, fun h => ?_, by decide, by decide⟩
  · match segs with
    | [] => rfl
    | [a] => exact absurd rfl h
    | a :: b :: rest => rfl
  · simp [finishTokenise, h]
  · simp [finishTokenise, h]

theorem claim_C7_witness :
    finishTokenise [] [[], []] = ([], [[], []]) ∧
    finishTokenise [] [String.toList "A - 1"] =
      ([Token.title ['A'], Token.episodeNumber 1], []) ∧
    finishTokenise [] [String.toList "A"] = ([], [String.toList "A"]) :=
  ⟨(claim_C7 [] [[], []] [] [] 0 none).1 (by decide),
   by
     have h := (claim_C7 [] [String.toList "A - 1"] (String.toList "A - 1")
       ['A'] 1 none).2.1 (by decide)
     simpa using h,
   (claim_C7 [] [String.toList "A"] (String.toList "A") [] 0 none).2.2.1
     (by decide)⟩

/-- Claim C5: in the generic split path the word classifiers are tried in
the fixed order audio, video, source, language, and the first match decides
the token category (an audio match yields `AudioQuality` whatever the other
predicates say, and so on down the chain). -/
theorem claim_C5 (w : List Char) :
    (is_audio_tag w = true → classifyWord w = some (Token.audioQuality w)) ∧
    (is_audio_tag w = false → is_video_tag w = true →
      classifyWord w = some (Token.videoQuality w)) ∧
    (is_audio_tag w = false → is_video_tag w = false →
      is_source_tag w = true → classifyWord w = some (Token.source w)) ∧
    (is_audio_tag w = false → is_video_tag w = false →
      is_source_tag w = false → is_language_tag w = true →
      classifyWord w = some (Token.audioLanguage w)) := by
  refine ⟨fun h => ?_, fun h1 h2 => ?_, fun h1 h2 h3 => ?_,
    fun h1 h2 h3 h4 => ?_⟩ <;>
    simp [classifyWord, *]

theorem claim_C5_witness :
    classifyWord (String.toList "5.1") =
      some (Token.audioQuality (String.toList "5.1")) ∧
    classifyWord (String.toList "720p") =
      some (Token.videoQuality (String.toList "720p")) ∧
    classifyWord (String.toList "web") =
      some (Token.source (String.toList "web")) ∧
    classifyWord (String.toList "jp") =
      some (Token.audioLanguage (String.toList "jp")) :=
  ⟨(claim_C5 _).1 (by decide),
   (claim_C5 _).2.1 (by decide) (by decide),
   (claim_C5 _).2.2.1 (by decide) (by decide) (by decide),
   (claim_C5 _).2.2.2 (by decide) (by decide) (by decide) (by decide)⟩

/-- Claim C10: a word classified by the language predicate and by no
higher-priority predicate is emitted as an `AudioLanguage` token carrying the
word verbatim, never as a `SubtitlesLanguage` token. -/
theorem claim_C10 (w : List Char) :
    is_language_tag w = true → is_audio_tag w = false →
    is_video_tag w = false → is_source_tag w = false →
    classifyWord w = some (Token.audioLanguage w) ∧
      ∀ u, classifyWord w ≠ some (Token.subtitlesLanguage u) := by
  intro h1 h2 h3 h4
  refine ⟨by simp [classifyWord, *], fun u => ?_⟩
  simp [classifyWord, *]

theorem claim_C10_witness :
    classifyWord (String.toList "dual") =
      some (Token.audioLanguage (String.toList "dual")) :=
  (claim_C10 (String.toList "dual") (by decide) (by decide) (by decide)
    (by decide)).1

/-- Claim C4: for a tag content on the generic path (not a known group, not
an 8-hex hash, not one of the fixed literals, not noise), the classifier
takes the first fully classified split among the delimiters
`' ', ',', '-', '.', '_'` tried in that order, and contributes zero tokens
when every delimiter fails; no failure escapes. -/
theorem claim_C4 (v : List Char)
    (h1 : KNOWN_GROUPS.contains v = false)
    (h2 : (v.length == 8 && v.all isHexDigit) = false)
    (h3 : v ≠ String.toList "Multiple Subtitle")
    (h4 : v ≠ String.toList "Dual Audio")
    (h5 : isNoise v = false) :
    tagTokens v =
      (([' ', ',', '-', '.', '_'].findSome?
          (fun c => tokeniseTag (pySplit c v))).getD []) := by
  simp only [tagTokens, h1, h2, h5, if_neg h3, if_neg h4, Bool.false_eq_true,
    if_false, ← trySplitChars_eq_findSome]
  cases h : trySplitChars [' ', ',', '-', '.', '_'] v <;> simp [h]

theorem claim_C4_witness :
    tagTokens (String.toList "720p x264") =
      (([' ', ',', '-', '.', '_'].findSome?
          (fun c => tokeniseTag (pySplit c (String.toList "720p x264")))).getD
        []) :=
  claim_C4 (String.toList "720p x264") (by decide) (by decide) (by decide)
    (by decide) (by decide)

end Categorise

namespace Categorise

/-! ## Totality of `tokenise` (claim C1)

The only raising path modelled by `none` is the tuple unpacking of
`string.split(tag, maxsplit=1)`, which fails exactly when `tag` does not
occur in the working string.  We show the tags returned by `findTags` always
occur, in order, in the string being consumed. -/

/-- The given tags occur in `s` in order, without overlap, each starting
with an opening bracket. -/
def TagsIn : List (List Char) → List Char → Prop
  | [], _ => True
  | t :: ts, s => ∃ a b, s = a ++ t ++ b ∧ (∃ u, t = '[' :: u) ∧ TagsIn ts b

theorem tagsIn_append (ts : List (List Char)) (a b : List Char)
    (h : TagsIn ts b) : TagsIn ts (a ++ b) := by
  cases ts with
  | nil => trivial
  | cons t ts =>
    obtain ⟨x, y, hb, hu, hrest⟩ := h
    exact ⟨a ++ x, y, by rw [hb]; simp, hu, hrest⟩

theorem tagsIn_suffix (ts : List (List Char)) (b q : List Char)
    (h : TagsIn ts b) (hs : b <:+ q) : TagsIn ts q := by
  obtain ⟨w, hw⟩ := hs
  rw [← hw]
  exact tagsIn_append ts w b h

theorem findTagsAux_spec (l : List Char) :
    TagsIn (findTagsAux none l) l ∧
    ∀ acc, TagsIn (findTagsAux (some acc) l) ('[' :: acc.reverse ++ l) := by
  induction l with
  | nil => exact ⟨trivial, fun _ => trivial⟩
  | cons c rest ih =>
    constructor
    · by_cases hc : c = '['
      · subst hc
        simpa [findTagsAux] using ih.2 []
      · rw [findTagsAux, if_neg hc]
        exact tagsIn_append _ [c] rest ih.1
    · intro acc
      by_cases hc : c = ']'
      · subst hc
        cases acc with
        | nil =>
          have h := tagsIn_append (findTagsAux none rest) ['[', ']'] rest ih.1
          simpa [findTagsAux] using h
        | cons a as =>
          have he : findTagsAux (some (a :: as)) (']' :: rest)
              = ('[' :: (a :: as).reverse ++ [']']) :: findTagsAux none rest := by
            simp [findTagsAux]
          rw [he]
          refine ⟨[], rest, by simp, ⟨(a :: as).reverse ++ [']'], rfl⟩, ih.1⟩
      · rw [findTagsAux, if_neg hc]
        simpa [List.append_assoc] using ih.2 (c :: acc)

theorem tagsIn_findTags (l : List Char) : TagsIn (findTags l) l :=
  (findTagsAux_spec l).1

/-- Unfolded form of `splitFirst` usable for any list shape. -/
theorem splitFirst_eq (t l : List Char) :
    splitFirst t l =
      if t.isPrefixOf l then some ([], l.drop t.length)
      else
        match l with
        | [] => none
        | c :: rest => (splitFirst t rest).map (fun p => (c :: p.1, p.2)) := by
  cases l with
  | nil => simp [splitFirst]
  | cons c rest => rfl

/-- When `t` occurs in the string, `str.split(t, 1)` succeeds, and the text
after the first occurrence keeps everything after the given occurrence as a
suffix. -/
theorem splitFirst_of_occurs (t : List Char) :
    ∀ a b : List Char,
      ∃ p q, splitFirst t (a ++ t ++ b) = some (p, q) ∧ b <:+ q := by
  intro a
  induction a with
  | nil =>
    intro b
    refine ⟨[], (t ++ b).drop t.length, ?_, ?_⟩
    · simp only [List.nil_append]
      rw [splitFirst_eq,
        if_pos (List.isPrefixOf_iff_prefix.mpr (List.prefix_append t b))]
    · rw [List.drop_left t b]
  | cons a0 a ih =>
    intro b
    by_cases hp : t.isPrefixOf ((a0 :: a) ++ t ++ b)
    · refine ⟨[], ((a0 :: a) ++ t ++ b).drop t.length,
        by rw [splitFirst_eq, if_pos hp], ?_⟩
      have hb : (((a0 :: a) ++ t ++ b).drop t.length).drop (a0 :: a).length
          = b := by
        rw [List.drop_drop, Nat.add_comm,
          show (a0 :: a) ++ t ++ b = ((a0 :: a) ++ t) ++ b by simp,
          ← List.length_append, List.drop_left]
      have h2 := List.drop_suffix (a0 :: a).length
        (((a0 :: a) ++ t ++ b).drop t.length)
      rw [hb] at h2
      exact h2
    · obtain ⟨p, q, hs, hsuf⟩ := ih b
      refine ⟨a0 :: p, q, ?_, hsuf⟩
      rw [show (a0 :: a) ++ t ++ b = a0 :: (a ++ t ++ b) by simp,
        splitFirst_eq, if_neg ?_]
      · simp only [List.append_assoc] at hs
        simp [hs]
      · simpa [show a0 :: (a ++ t ++ b) = (a0 :: a) ++ t ++ b by simp]
          using hp

/-- Left-stripping cannot eat into an occurrence that starts with a
non-whitespace `[`. -/
theorem lstrip_decomp (u b : List Char) :
    ∀ a, ∃ a2, lstrip (a ++ ('[' :: u) ++ b) = a2 ++ ('[' :: u) ++ b := by
  intro a
  induction a with
  | nil => exact ⟨[], by simp [lstrip, List.dropWhile_cons]⟩
  | cons c a ih =>
    by_cases hw : Char.isWhitespace c
    · obtain ⟨a2, h⟩ := ih
      exact ⟨a2, by simpa [lstrip, List.dropWhile_cons, hw] using h⟩
    · exact ⟨c :: a, by simp [lstrip, List.dropWhile_cons, hw]⟩

theorem tagsIn_lstrip (ts : List (List Char)) (s : List Char)
    (h : TagsIn ts s) : TagsIn ts (lstrip s) := by
  cases ts with
  | nil => trivial
  | cons t ts =>
    obtain ⟨a, b, hs, ⟨u, hu⟩, hrest⟩ := h
    subst hu
    obtain ⟨a2, h2⟩ := lstrip_decomp u b a
    exact ⟨a2, b, by rw [hs]; exact h2, ⟨u, rfl⟩, hrest⟩

theorem tokeniseLoop_total (tags : List (List Char)) :
    ∀ s, TagsIn tags s → ∃ r, tokeniseLoop tags s = some r := by
  induction tags with
  | nil => exact fun s _ => ⟨([], [], s), rfl⟩
  | cons t ts ih =>
    intro s h
    obtain ⟨a, b, hs, ⟨u, hu⟩, hrest⟩ := h
    obtain ⟨p, q, hsplit, hsuf⟩ := splitFirst_of_occurs t a b
    rw [← hs] at hsplit
    have hq : TagsIn ts (lstrip q) :=
      tagsIn_lstrip ts q (tagsIn_suffix ts b q hrest hsuf)
    obtain ⟨r, hr⟩ := ih (lstrip q) hq
    simp only [tokeniseLoop, hsplit, hr]
    exact ⟨_, rfl⟩

/-- Claim C1: `tokenize` never raises: for every input string it terminates
(it is a total Lean function) and returns a pair of a token list and a
residual-segment list; in particular the modelled raising paths (`none`) are
never reached. -/
theorem claim_C1 (s : List Char) : ∃ r, tokenise s = some r := by
  obtain ⟨⟨ts, segs, sfin⟩, h⟩ :=
    tokeniseLoop_total (findTags s) s (tagsIn_findTags s)
  simp only [tokenise, h]
  exact ⟨_, rfl⟩

end Categorise

namespace Categorise

/-! ## Token kinds produced by the tokenizer (claims C9, C6) -/

/-- The two `Token` variants no code path of `_tokenise` constructs. -/
def isRandomOrExtension : Token → Bool
  | .randomTag _ => true
  | .extension _ => true
  | _ => false

/-- Token kinds the per-word classifier can emit. -/
def isWordKind : Token → Bool
  | .audioQuality _ => true
  | .videoQuality _ => true
  | .source _ => true
  | .audioLanguage _ => true
  | _ => false

theorem classifyWord_kind (w : List Char) (t : Token)
    (h : classifyWord w = some t) : isWordKind t = true := by
  unfold classifyWord at h
  split_ifs at h <;> (obtain rfl := Option.some.inj h; rfl)

theorem tokeniseTagAux_kind (ws : List (List Char)) :
    ∀ t ∈ (tokeniseTagAux ws).1, isWordKind t = true := by
  induction ws with
  | nil => simp [tokeniseTagAux]
  | cons w ws ih =>
    intro t ht
    simp only [tokeniseTagAux] at ht
    cases h : classifyWord w with
    | none => rw [h] at ht; exact ih t ht
    | some t0 =>
      rw [h] at ht
      rcases List.mem_cons.mp ht with h1 | h1
      · exact h1 ▸ classifyWord_kind w t0 h
      · exact ih t h1

theorem tokeniseTag_kind (ws : List (List Char)) (ts : List Token)
    (h : tokeniseTag ws = some ts) : ∀ t ∈ ts, isWordKind t = true := by
  unfold tokeniseTag at h
  by_cases he : (tokeniseTagAux ws).2.isEmpty
  · rw [if_pos he] at h
    obtain rfl : (tokeniseTagAux ws).1 = ts := Option.some.inj h
    exact tokeniseTagAux_kind ws
  · rw [if_neg he] at h
    exact absurd h (by simp)

theorem trySplitChars_kind (cs : List Char) (v : List Char) (ts : List Token)
    (h : trySplitChars cs v = some ts) : ∀ t ∈ ts, isWordKind t = true := by
  induction cs with
  | nil => exact absurd h (by simp [trySplitChars])
  | cons c cs ih =>
    simp only [trySplitChars] at h
    cases h2 : tokeniseTag (pySplit c v) with
    | none => rw [h2] at h; exact ih h
    | some ts0 =>
      rw [h2] at h
      obtain rfl : ts0 = ts := Option.some.inj h
      exact tokeniseTag_kind _ _ h2

theorem wordKind_not_randomExt (t : Token) (h : isWordKind t = true) :
    isRandomOrExtension t = false := by
  cases t <;> simp_all [isWordKind, isRandomOrExtension]

theorem wordKind_not_hash (t : Token) (h : isWordKind t = true) :
    ∀ v, t ≠ Token.hash v := by
  cases t <;> simp_all [isWordKind]

theorem tagTokens_kind (v : List Char) :
    ∀ t ∈ tagTokens v, isRandomOrExtension t = false := by
  intro t ht
  unfold tagTokens at ht
  split_ifs at ht with h1 h2 h3 h4 h5
  · simp only [List.mem_singleton] at ht; subst ht; rfl
  · simp only [List.mem_singleton] at ht; subst ht; rfl
  · rcases List.mem_cons.mp ht with h | h
    · subst h; rfl
    · simp only [List.mem_singleton] at h; subst h; rfl
  · rcases List.mem_cons.mp ht with h | h
    · subst h; rfl
    · simp only [List.mem_singleton] at h; subst h; rfl
  · exact absurd ht (by simp)
  · cases h : trySplitChars [' ', ',', '-', '.', '_'] v with
    | none => rw [h] at ht; exact absurd ht (by simp)
    | some ts =>
      rw [h] at ht
      exact wordKind_not_randomExt t (trySplitChars_kind _ _ _ h t ht)

theorem tokeniseLoop_kind (tags : List (List Char)) :
    ∀ s ts segs sfin, tokeniseLoop tags s = some (ts, segs, sfin) →
      ∀ t ∈ ts, isRandomOrExtension t = false := by
  induction tags with
  | nil =>
    intro s ts segs sfin h
    simp only [tokeniseLoop, Option.some.injEq] at h
    obtain ⟨rfl, rfl, rfl⟩ := Prod.mk.injEq .. ▸ h
    simp
  | cons tag rest ih =>
    intro s ts segs sfin h
    simp only [tokeniseLoop] at h
    cases h1 : splitFirst tag s with
    | none => simp only [h1] at h; exact absurd h (by simp)
    | some pq =>
      obtain ⟨p, q⟩ := pq
      simp only [h1] at h
      cases h2 : tokeniseLoop rest (lstrip q) with
      | none => simp only [h2] at h; exact absurd h (by simp)
      | some r =>
        obtain ⟨ts2, segs2, sfin2⟩ := r
        simp only [h2, Option.some.injEq, Prod.mk.injEq] at h
        obtain ⟨hts, _, _⟩ := h
        intro t ht
        rw [← hts] at ht
        rcases List.mem_append.mp ht with hm | hm
        · exact tagTokens_kind _ t hm
        · exact ih _ _ _ _ h2 t hm

theorem finishTokenise_kind (ts : List Token) (segs : List (List Char))
    (h : ∀ t ∈ ts, isRandomOrExtension t = false) :
    ∀ t ∈ (finishTokenise ts segs).1, isRandomOrExtension t = false := by
  intro t ht
  cases segs with
  | nil =>
    simp only [finishTokenise] at ht
    exact h t ht
  | cons a tail =>
    cases tail with
    | cons b r =>
      simp only [finishTokenise] at ht
      exact h t ht
    | nil =>
      simp only [finishTokenise] at ht
      cases hm : titleMatch a with
      | none =>
        simp only [hm] at ht
        exact h t ht
      | some res =>
        obtain ⟨nm, ep, sec⟩ := res
        simp only [hm, List.mem_append] at ht
        rcases ht with hm2 | hm2
        · exact h t hm2
        · rcases List.mem_cons.mp hm2 with h3 | h3
          · subst h3; rfl
          · rcases List.mem_cons.mp h3 with h4 | h4
            · subst h4; rfl
            · cases sec with
              | none => exact absurd h4 (by simp)
              | some e2 =>
                simp only [List.mem_singleton] at h4
                subst h4; rfl

/-- Claim C9: the token sequence returned by `tokenize` never contains a
`RandomTag` or an `Extension` token: no code path of `_tokenise` constructs
either variant, so unclassified bracket tags are dropped, not retained. -/
theorem claim_C9 (s : List Char) (ts : List Token) (segs : List (List Char))
    (h : tokenise s = some (ts, segs)) :
    ts.all (fun t => !(isRandomOrExtension t)) = true := by
  unfold tokenise at h
  cases hl : tokeniseLoop (findTags s) s with
  | none => rw [hl] at h; exact absurd h (by simp)
  | some r =>
    obtain ⟨ts0, segs0, sfin⟩ := r
    rw [hl] at h
    have hgood := tokeniseLoop_kind (findTags s) s ts0 segs0 sfin hl
    have h2 := finishTokenise_kind ts0
      (segs0 ++ (if sfin.isEmpty then [] else [sfin])) hgood
    simp only [Option.some.injEq] at h
    rw [List.all_eq_true]
    intro t ht
    have : t ∈ (finishTokenise ts0
        (segs0 ++ (if sfin.isEmpty then [] else [sfin]))).1 := by
      rw [h]; exact ht
    simp [h2 t this]

theorem claim_C9_witness :
    tokenise (String.toList "x [720p]") =
      some ([Token.videoQuality (String.toList "720p")],
        [String.toList "x"]) ∧
    ([Token.videoQuality (String.toList "720p")]).all
      (fun t => !(isRandomOrExtension t)) = true :=
  ⟨by decide, claim_C9 (String.toList "x [720p]")
    [Token.videoQuality (String.toList "720p")] [String.toList "x"]
    (by decide)⟩

end Categorise

namespace Categorise

/-! ## The hash branch and the generic fall-through (claim C6)

An 8-character content can also match the noise prefixes `Disc \d` / `v\d`;
in that case the noise branch yields `[]`, which coincides with the result
of the generic split path because a word starting with `v`+digit, or
containing the `Disc ` prefix, is unclassifiable for every delimiter. -/

/-- Token kind test for `Hash`. -/
def isHashToken : Token → Bool
  | .hash _ => true
  | _ => false

theorem digit_toLower (d : Char) (hd : d.isDigit = true) : d.toLower = d := by
  simp only [Char.isDigit, ge_iff_le, Bool.and_eq_true, decide_eq_true_eq] at hd
  have h57 : d.val.toNat ≤ 57 := by
    refine UInt32.toNat_le_of_le (by norm_num [UInt32.size]) ?_
    exact hd.2
  rw [Char.toLower]
  rw [if_neg]
  rw [Char.toNat]
  omega

theorem digit_ne (d c : Char) (hd : d.isDigit = true)
    (hc : c.isDigit = false) : d ≠ c := by
  intro h
  rw [h] at hd
  rw [hd] at hc
  cases hc

theorem pySplit_shape (sep : Char) (l : List Char) :
    ∃ ws, pySplit sep l = l.takeWhile (fun x => x != sep) :: ws := by
  induction l with
  | nil => exact ⟨[], rfl⟩
  | cons c rest ih =>
    by_cases hc : c = sep
    · subst hc
      exact ⟨pySplit c rest, by simp [pySplit, List.takeWhile_cons]⟩
    · obtain ⟨ws, hws⟩ := ih
      refine ⟨ws, ?_⟩
      simp only [pySplit, if_neg hc, hws, List.takeWhile_cons]
      simp [bne_iff_ne, hc]

theorem tokeniseTag_head_fail (W : List Char) (ws : List (List Char))
    (h : classifyWord W = none) : tokeniseTag (W :: ws) = none := by
  simp [tokeniseTag, tokeniseTagAux, h]

/-- The `WIDTHxHEIGHT` check fails when the word starts with a non-digit
character other than `x`. -/
theorem xmatch_false (c0 : Char) (hc0d : c0.isDigit = false)
    (hc0x : (c0 != 'x') = true) (rest : List Char) :
    (match pySplit 'x' (c0 :: rest) with
     | [width, height] => isNumericStr width && isNumericStr height
     | _ => false) = false := by
  obtain ⟨ws, hws⟩ := pySplit_shape 'x' (c0 :: rest)
  rw [List.takeWhile_cons, if_pos (by simp_all)] at hws
  rw [hws]
  cases ws with
  | nil => rfl
  | cons b ws2 =>
    cases ws2 with
    | nil => simp [isNumericStr, hc0d]
    | cons b2 ws3 => rfl

theorem classifyWord_vdigit (d : Char) (hd : d.isDigit = true)
    (t : List Char) : classifyWord ('v' :: d :: t) = none := by
  have h0 := digit_toLower d hd
  have ho := digit_ne d 'o' hd (by decide)
  have hr := digit_ne d 'r' hd (by decide)
  have haud : is_audio_tag ('v' :: d :: t) = false := by
    rcases t with _ | ⟨c0, _ | ⟨c1, t⟩⟩ <;>
      simp [is_audio_tag, toLowerStr, h0, ho]
  have hvid : is_video_tag ('v' :: d :: t) = false := by
    have hx := xmatch_false 'v' (by decide) (by decide) (d :: t)
    simp only [isNumericStr] at hx
    simp [is_video_tag, toLowerStr, h0, isNumericStr, List.dropLast, hx]
  have hsrc : is_source_tag ('v' :: d :: t) = false := by
    simp [is_source_tag, toLowerStr, h0, hr]
  have hlang : is_language_tag ('v' :: d :: t) = false := by
    simp [is_language_tag, toLowerStr, h0]
  simp [classifyWord, haud, hvid, hsrc, hlang]

theorem classifyWord_discWord (t : List Char) :
    classifyWord ('D' :: 'i' :: 's' :: 'c' :: ' ' :: t) = none := by
  have hx := xmatch_false 'D' (by decide) (by decide)
    ('i' :: 's' :: 'c' :: ' ' :: t)
  have haud : is_audio_tag ('D' :: 'i' :: 's' :: 'c' :: ' ' :: t) = false := by
    simp [is_audio_tag, toLowerStr]
  have hvid : is_video_tag ('D' :: 'i' :: 's' :: 'c' :: ' ' :: t) = false := by
    simp only [isNumericStr] at hx
    simp [is_video_tag, toLowerStr, isNumericStr, List.dropLast, hx]
  have hsrc : is_source_tag ('D' :: 'i' :: 's' :: 'c' :: ' ' :: t)
      = false := by
    simp [is_source_tag, toLowerStr]
  have hlang : is_language_tag ('D' :: 'i' :: 's' :: 'c' :: ' ' :: t)
      = false := by
    simp [is_language_tag, toLowerStr]
  simp [classifyWord, haud, hvid, hsrc, hlang]

/-- When the first word of every delimiter split is unclassifiable, the whole
retry loop fails. -/
theorem trySplit_fail_head (v : List Char)
    (h : ∀ sep ∈ ([' ', ',', '-', '.', '_'] : List Char),
      classifyWord (v.takeWhile (fun x => x != sep)) = none) :
    trySplitChars [' ', ',', '-', '.', '_'] v = none := by
  have hmk : ∀ sep : Char,
      classifyWord (v.takeWhile (fun x => x != sep)) = none →
      tokeniseTag (pySplit sep v) = none := by
    intro sep hc
    obtain ⟨ws, hws⟩ := pySplit_shape sep v
    rw [hws]
    exact tokeniseTag_head_fail _ ws hc
  have h1 := hmk ' ' (h ' ' (by decide))
  have h2 := hmk ',' (h ',' (by decide))
  have h3 := hmk '-' (h '-' (by decide))
  have h4 := hmk '.' (h '.' (by decide))
  have h5 := hmk '_' (h '_' (by decide))
  simp [trySplitChars, h1, h2, h3, h4, h5]

theorem noiseV_trySplit (d : Char) (hd : d.isDigit = true) (t : List Char) :
    trySplitChars [' ', ',', '-', '.', '_'] ('v' :: d :: t) = none := by
  apply trySplit_fail_head
  intro sep hsep
  have hv : ( 'v' != sep) = true := by fin_cases hsep <;> decide
  have hdn : (d != sep) = true := by
    simp only [bne_iff_ne, ne_eq]
    fin_cases hsep <;> exact digit_ne d _ hd (by decide)
  simp only [List.takeWhile_cons, hv, hdn, if_true]
  exact classifyWord_vdigit d hd _

theorem noiseDisc_trySplit (d : Char) (_hd : d.isDigit = true)
    (t : List Char) :
    trySplitChars [' ', ',', '-', '.', '_']
      ('D' :: 'i' :: 's' :: 'c' :: ' ' :: d :: t) = none := by
  apply trySplit_fail_head
  intro sep hsep
  fin_cases hsep
  · simp only [List.takeWhile_cons]
    norm_num
    exact (by decide : classifyWord ['D', 'i', 's', 'c'] = none)
  all_goals
    simp only [List.takeWhile_cons]
    norm_num
    exact classifyWord_discWord _

theorem noiseV_inv (v : List Char) (h : noiseV v = true) :
    ∃ d t, v = 'v' :: d :: t ∧ d.isDigit = true := by
  match v with
  | [] => simp [noiseV] at h
  | [c0] => simp [noiseV] at h
  | c0 :: c1 :: t =>
    simp only [noiseV, Bool.and_eq_true, beq_iff_eq] at h
    exact ⟨c1, t, by rw [h.1], h.2⟩

theorem noiseDisc_inv (v : List Char) (h : noiseDisc v = true) :
    ∃ d t, v = 'D' :: 'i' :: 's' :: 'c' :: ' ' :: d :: t ∧
      d.isDigit = true := by
  match v with
  | [] | [_] | [_, _] | [_, _, _] | [_, _, _, _] | [_, _, _, _, _] =>
    exact absurd h (by simp [noiseDisc])
  | c0 :: c1 :: c2 :: c3 :: c4 :: d :: t =>
    simp only [noiseDisc, Bool.and_eq_true, beq_iff_eq] at h
    obtain ⟨⟨⟨⟨⟨e0, e1⟩, e2⟩, e3⟩, e4⟩, hd⟩ := h
    subst e0 e1 e2 e3 e4
    exact ⟨d, t, rfl, hd⟩

/-- Claim C6: for an 8-character tag content that is not a known group: all
hexadecimal yields exactly one verbatim `Hash` token; otherwise no `Hash`
token is produced and the result coincides with the generic delimiter-split
path (for noise-prefixed contents both are empty). -/
theorem claim_C6 (v : List Char)
    (h1 : KNOWN_GROUPS.contains v = false)
    (h2 : v.length = 8) :
    (v.all isHexDigit = true → tagTokens v = [Token.hash v]) ∧
    (v.all isHexDigit = false →
      (tagTokens v).all (fun t => !(isHashToken t)) = true ∧
      tagTokens v =
        (trySplitChars [' ', ',', '-', '.', '_'] v).getD []) := by
  constructor
  · intro hall
    rw [tagTokens, if_neg (by simp only [h1]; decide),
      if_pos (by simp [h2, hall])]
  · intro hall
    have hns : v ≠ String.toList "Multiple Subtitle" := by
      intro h; rw [h] at h2; exact absurd h2 (by decide)
    have hnd : v ≠ String.toList "Dual Audio" := by
      intro h; rw [h] at h2; exact absurd h2 (by decide)
    cases hn : isNoise v with
    | false =>
      have he : tagTokens v =
          (trySplitChars [' ', ',', '-', '.', '_'] v).getD [] := by
        rw [tagTokens, if_neg (by simp only [h1]; decide),
          if_neg (by simp [hall]), if_neg hns, if_neg hnd,
          if_neg (by simp only [hn]; decide)]
        cases h : trySplitChars [' ', ',', '-', '.', '_'] v <;> simp [h]
      refine ⟨?_, he⟩
      rw [he]
      cases h : trySplitChars [' ', ',', '-', '.', '_'] v with
      | none => rfl
      | some ts =>
        simp only [Option.getD_some]
        rw [List.all_eq_true]
        intro t ht
        have hk := trySplitChars_kind _ _ _ h t ht
        cases t <;> simp_all [isWordKind, isHashToken]
    | true =>
      have hor : (noiseDisc v || noiseV v) = true := by
        simp only [isNoise, Bool.or_eq_true, beq_iff_eq] at hn
        rcases hn with ((h | h) | h) | h
        · simp [h]
        · simp [h]
        · rw [h] at h2; exact absurd h2 (by decide)
        · rw [h] at h2; exact absurd h2 (by decide)
      have htag : tagTokens v = [] := by
        rw [tagTokens, if_neg (by simp only [h1]; decide),
          if_neg (by simp [hall]), if_neg hns, if_neg hnd, if_pos hn]
      have hfail : trySplitChars [' ', ',', '-', '.', '_'] v = none := by
        have hor2 : noiseDisc v = true ∨ noiseV v = true := by simpa using hor
        rcases hor2 with h | h
        · obtain ⟨d, t, rfl, hd⟩ := noiseDisc_inv v h
          exact noiseDisc_trySplit d hd t
        · obtain ⟨d, t, rfl, hd⟩ := noiseV_inv v h
          exact noiseV_trySplit d hd t
      rw [htag, hfail]
      exact ⟨rfl, rfl⟩

theorem claim_C6_witness :
    tagTokens (String.toList "1A2B3C4D") =
      [Token.hash (String.toList "1A2B3C4D")] ∧
    (tagTokens (String.toList "1A2B3C4G")).all
      (fun t => !(isHashToken t)) = true ∧
    tagTokens (String.toList "1A2B3C4G") =
      (trySplitChars [' ', ',', '-', '.', '_']
        (String.toList "1A2B3C4G")).getD [] :=
  ⟨(claim_C6 (String.toList "1A2B3C4D") (by decide) (by decide)).1 (by decide),
   ((claim_C6 (String.toList "1A2B3C4G") (by decide) (by decide)).2
     (by decide)).1,
   ((claim_C6 (String.toList "1A2B3C4G") (by decide) (by decide)).2
     (by decide)).2⟩

end Categorise
